import Mathlib

/-!
Verification of the dummy-redis RESP codec and command layer.

A shallow embedding of the repository's core (`src/resp/mod.rs`,
`src/resp/encode.rs`, `src/resp/decode.rs`, `src/cmd/mod.rs`,
`src/cmd/map.rs`, `src/cmd/hmap.rs`) in Lean 4.

Modelling conventions:
* Rust byte buffers (`BytesMut`, `Vec<u8>`, `&[u8]`) are `List Nat`, one
  entry per byte.
* Rust `String` values are represented by their UTF-8 byte sequence, also
  a `List Nat`.  `String::from_utf8_lossy` is modelled byte-for-byte by
  `utf8Lossy` below.
* Rust `f64` is modelled by the exact rational value `ℚ` a decimal literal
  denotes.  The model is exact where the claims evaluate it (integral and
  short decimal values); the binary64 rounding of `str::parse::<f64>` and
  the shortest-round-trip digit selection of Rust's float formatting are
  not modelled (they agree with the model on every value a theorem below
  evaluates, and the structural facts proved about formatting - which
  branch is taken, whether an `e` appears, the sign - do not depend on
  digit selection).  The `inf`/`nan` literals accepted by Rust's float
  parser are outside the model; no claim touches them.
* `usize` is modelled by `Nat`; `parse::<usize>` overflow (returning an
  error for huge digit strings) is not modelled, as no claim reaches it.
* A Rust panic (an out-of-bounds slice index) is modelled by a distinct
  `panic` result constructor, so that aborting executions are visible.
* Error payload strings of `RespError` are elided (no claim depends on
  them); `CommandError` keeps its payloads because command-layer claims
  inspect the produced error text.
-/

/-- Byte sequence of an ASCII string literal (all literals used below are
ASCII, where UTF-8 is the identity on code points). -/
def asciiBytes (s : String) : List Nat := s.data.map Char.toNat

/-- The CRLF terminator `\r\n`. -/
def crlfB : List Nat := [13, 10]

/-- Is `b` a UTF-8 continuation byte (`0x80..=0xBF`)?  Used by the model of
`String::from_utf8_lossy` / `String::from_utf8`. -/
def isCont (b : Nat) : Bool := decide (128 ≤ b ∧ b ≤ 191)

/-- Admissible second byte of a multi-byte UTF-8 sequence led by `b0`
(the restricted ranges rule out overlong encodings, surrogates and values
above U+10FFFF, exactly as Rust's `core::str` validation does). -/
def utf8Second (b0 b1 : Nat) : Bool :=
  if b0 = 224 then decide (160 ≤ b1 ∧ b1 ≤ 191)
  else if b0 = 237 then decide (128 ≤ b1 ∧ b1 ≤ 159)
  else if b0 = 240 then decide (144 ≤ b1 ∧ b1 ≤ 191)
  else if b0 = 244 then decide (128 ≤ b1 ∧ b1 ≤ 143)
  else isCont b1

/-- The UTF-8 bytes of U+FFFD REPLACEMENT CHARACTER, emitted by
`String::from_utf8_lossy` for each maximal invalid subsequence. -/
def repChar : List Nat := [239, 191, 189]

/-- Model of `String::from_utf8_lossy` (composed with `.to_string()` /
`into_bytes`, so both ends are byte sequences): valid UTF-8 sequences are
copied through unchanged, each maximal invalid prefix is replaced by
U+FFFD following the WHATWG error lengths used by `core::str`
(an invalid lead byte consumes one byte; a sequence broken at its `k`-th
continuation byte consumes the `k` bytes read so far; a sequence truncated
by the end of input consumes the remaining bytes). -/
def utf8Lossy : List Nat → List Nat
  | [] => []
  | b0 :: rest =>
    if b0 ≤ 127 then b0 :: utf8Lossy rest
    else if 194 ≤ b0 ∧ b0 ≤ 223 then
      match rest with
      | b1 :: rest1 =>
        if isCont b1 then b0 :: b1 :: utf8Lossy rest1
        else repChar ++ utf8Lossy (b1 :: rest1)
      | [] => repChar
    else if 224 ≤ b0 ∧ b0 ≤ 239 then
      match rest with
      | b1 :: rest1 =>
        if utf8Second b0 b1 then
          match rest1 with
          | b2 :: rest2 =>
            if isCont b2 then b0 :: b1 :: b2 :: utf8Lossy rest2
            else repChar ++ utf8Lossy (b2 :: rest2)
          | [] => repChar
        else repChar ++ utf8Lossy (b1 :: rest1)
      | [] => repChar
    else if 240 ≤ b0 ∧ b0 ≤ 244 then
      match rest with
      | b1 :: rest1 =>
        if utf8Second b0 b1 then
          match rest1 with
          | b2 :: rest2 =>
            if isCont b2 then
              match rest2 with
              | b3 :: rest3 =>
                if isCont b3 then b0 :: b1 :: b2 :: b3 :: utf8Lossy rest3
                else repChar ++ utf8Lossy (b3 :: rest3)
              | [] => repChar
            else repChar ++ utf8Lossy (b2 :: rest2)
          | [] => repChar
        else repChar ++ utf8Lossy (b1 :: rest1)
      | [] => repChar
    else repChar ++ utf8Lossy rest

/-- Model of the validity check of `String::from_utf8` (`Ok` exactly on
valid UTF-8). -/
def validUtf8 : List Nat → Bool
  | [] => true
  | b0 :: rest =>
    if b0 ≤ 127 then validUtf8 rest
    else if 194 ≤ b0 ∧ b0 ≤ 223 then
      match rest with
      | b1 :: rest1 => isCont b1 && validUtf8 rest1
      | [] => false
    else if 224 ≤ b0 ∧ b0 ≤ 239 then
      match rest with
      | b1 :: b2 :: rest2 => utf8Second b0 b1 && isCont b2 && validUtf8 rest2
      | _ => false
    else if 240 ≤ b0 ∧ b0 ≤ 244 then
      match rest with
      | b1 :: b2 :: b3 :: rest3 =>
        utf8Second b0 b1 && isCont b2 && isCont b3 && validUtf8 rest3
      | _ => false
    else false

example : utf8Lossy (asciiBytes "hello") = asciiBytes "hello" := by decide
example : utf8Lossy [255] = [239, 191, 189] := by decide
example : validUtf8 [255] = false := by decide

/-- Fuel-indexed helper for decimal digit extraction (structural in the
fuel so the kernel can evaluate it); `natDigits` supplies enough fuel. -/
def natDigitsAux : Nat → Nat → List Nat
  | 0, _ => []
  | fuel + 1, n =>
    if n < 10 then [48 + n]
    else natDigitsAux fuel (n / 10) ++ [48 + n % 10]

/-- ASCII decimal digits of `n`, most significant first: the model of
Rust's `format!` output for an unsigned integer. -/
def natDigits (n : Nat) : List Nat := natDigitsAux (n + 1) n

/-- ASCII decimal rendering of a signed integer, the model of `format!`'s
`Display` for integers (a `-` sign for negatives, no `+` sign). -/
def intDec (i : Int) : List Nat :=
  if i < 0 then 45 :: natDigits (-i).toNat else natDigits i.toNat

/-- Numeric value of a list of ASCII digits (most significant first). -/
def digitsVal (ds : List Nat) : Nat := ds.foldl (fun a d => a * 10 + (d - 48)) 0

/-- `some` of the value of a nonempty all-digit ASCII string, else `none`. -/
def digitsToNat? (s : List Nat) : Option Nat :=
  if s ≠ [] ∧ s.all (fun b => decide (48 ≤ b ∧ b ≤ 57)) then some (digitsVal s)
  else none

/-- Model of `str::parse::<usize>`: an optional leading `+`, then at least
one decimal digit and nothing else.  (Overflow of 64-bit `usize` is not
modelled; no claim reaches it.) -/
def parseUsize (s : List Nat) : Option Nat :=
  match s with
  | [] => digitsToNat? []
  | b :: r => if b = 43 then digitsToNat? r else digitsToNat? (b :: r)

/-- Longest all-digit ASCII prefix and the remainder. -/
def spanDigits : List Nat → List Nat × List Nat
  | [] => ([], [])
  | b :: r =>
    if 48 ≤ b ∧ b ≤ 57 then
      let p := spanDigits r
      (b :: p.1, p.2)
    else ([], b :: r)

/-- Exponent part of `str::parse::<f64>`: optional sign, then at least one
digit and nothing else. -/
def parseF64Exp (m : ℚ) (r : List Nat) : Option ℚ :=
  let p : Int × List Nat :=
    match r with
    | 43 :: t => (1, t)
    | 45 :: t => (-1, t)
    | t => (1, t)
  match digitsToNat? p.2 with
  | some e => some (m * (10 : ℚ) ^ (p.1 * (e : Int)))
  | none => none

/-- Unsigned part of `str::parse::<f64>`: `digits [. digits]` with at least
one digit overall, optionally followed by an `e`/`E` exponent. -/
def parseF64Abs (s : List Nat) : Option ℚ :=
  let ip := spanDigits s
  let fp : List Nat × List Nat :=
    match ip.2 with
    | 46 :: r => spanDigits r
    | r1 => ([], r1)
  if ip.1 = [] ∧ fp.1 = [] then none
  else
    let m : ℚ := (digitsVal ip.1 : ℚ) + (digitsVal fp.1 : ℚ) / (10 : ℚ) ^ fp.1.length
    match fp.2 with
    | [] => some m
    | 101 :: r => parseF64Exp m r
    | 69 :: r => parseF64Exp m r
    | _ => none

/-- Model of `str::parse::<f64>` on the finite-number grammar
`[+|-] digits [. digits] [e|E [+|-] digits]` (value taken exactly; see the
module comment for the rounding caveat and the omitted `inf`/`nan`
literals). -/
def parseF64 : List Nat → Option ℚ
  | 43 :: r => parseF64Abs r
  | 45 :: r => (parseF64Abs r).map (fun q => -q)
  | s => parseF64Abs s

/-- Decimal fraction digits of `f` (expected in `[0,1)`), fuel-bounded so
the definition is structural; 1200 decimal places cover the exact expansion
of every binary64 value. -/
def fracDigits (f : ℚ) : Nat → List Nat
  | 0 => []
  | fuel + 1 =>
    if f = 0 then []
    else
      let n : Int := ⌊f * 10⌋
      (48 + n.toNat) :: fracDigits (f * 10 - n) fuel

/-- Decimal rendering of a non-negative rational: integer part, then the
fraction digits after a `.` when the fraction is nonzero (Rust's `Display`
prints no trailing `.0`). -/
def fmtPosDec (a : ℚ) : List Nat :=
  natDigits ⌊a⌋.toNat ++
    (if a - ⌊a⌋ = 0 then [] else 46 :: fracDigits (a - ⌊a⌋) 1200)

/-- Model of Rust's `Display` (`format!("{}", d)`) for a finite double:
sign, then the decimal expansion, never an exponent. -/
def fmtDisplay (q : ℚ) : List Nat :=
  if q < 0 then 45 :: fmtPosDec (-q) else fmtPosDec q

/-- Fuel-bounded search for the `k ≥ 1` with `1 ≤ a * 10^k < 10`, for the
scientific exponent of a value below one. -/
def decExpNegAux (a : ℚ) : Nat → Nat → Nat
  | k, 0 => k
  | k, fuel + 1 => if 1 ≤ a * (10 : ℚ) ^ k then k else decExpNegAux a (k + 1) fuel

/-- Decimal exponent of a positive rational: the `e` with
`10^e ≤ a < 10^(e+1)`. -/
def decExpPos (a : ℚ) : Int :=
  if 1 ≤ a then ((natDigits ⌊a⌋.toNat).length - 1 : Nat)
  else -(decExpNegAux a 1 1200 : Int)

/-- Model of Rust's `format!("{:+e}", d)` for a finite double: an explicit
`+`/`-` sign, the mantissa `d[.ddd]`, a lowercase `e`, and the exponent
rendered by integer `Display` (so no `+` on non-negative exponents);
`0.0` renders as `+0e0`. -/
def fmtExpPlus (q : ℚ) : List Nat :=
  (if q < 0 then [45] else [43]) ++
    (if q = 0 then [48, 101, 48]
     else
       let a := |q|
       let e := decExpPos a
       let m := a / (10 : ℚ) ^ e
       natDigits ⌊m⌋.toNat ++
         (if m - ⌊m⌋ = 0 then [] else 46 :: fracDigits (m - ⌊m⌋) 1200) ++
         [101] ++ intDec e)

/-- Model of `impl RespEncode for f64` (`src/resp/encode.rs`): scientific
notation via `{:+e}` when `self.abs() > 1e8 || self.abs() < 1e-8`, else
fixed notation with an explicit `+` for non-negative values (`{}` already
prints the `-` of a negative value). -/
def encodeF64 (q : ℚ) : List Nat :=
  44 ::
    ((if (10 : ℚ) ^ 8 < |q| ∨ |q| < 1 / (10 : ℚ) ^ 8 then fmtExpPlus q
      else (if q < 0 then [] else [43]) ++ fmtDisplay q) ++ crlfB)

example : natDigits 100000000 = asciiBytes "100000000" := by decide
example : parseUsize (asciiBytes "12") = some 12 := by decide
example : parseUsize (asciiBytes "abc") = none := by decide

/-- The RESP frame model, `enum RespFrame` of `src/resp/mod.rs`.  The
newtype wrappers (`SimpleString`, `BulkString`, `RespArray`, ...) are
inlined into the constructors; `RespMap`'s `BTreeMap<String, RespFrame>`
is modelled as a key-sorted association list (the encoder iterates it in
list order, as the `BTreeMap` iterator does in key order). -/
inductive RespFrame : Type
  | SimpleString (s : List Nat)
  | SimpleError (s : List Nat)
  | Integer (i : Int)
  | BulkString (b : List Nat)
  | NullBulkString
  | Array (elems : List RespFrame)
  | Null
  | NullArray
  | Boolean (b : Bool)
  | Double (d : ℚ)
  | Map (entries : List (List Nat × RespFrame))
  | Set (elems : List RespFrame)
deriving Repr

/-- `enum RespError` of `src/resp/mod.rs` (payload strings elided; the
not-enough-bytes variant is spelled `NotComplete` there and `Incomplete`
at its construction sites in `decode.rs`).  `ParseIntError` and
`ParseFloatError` are the variants reached through the `#[from]`
conversions. -/
inductive RespError : Type
  | InvalidFrame
  | InvalidFrameLength
  | InvalidFrameType
  | Incomplete
  | ParseIntError
  | ParseFloatError
deriving Repr, DecidableEq

/-- Outcome of running a decoder on a buffer: `ok value rest` and
`err e rest` carry the buffer as the call leaves it (decoding mutates the
`BytesMut` in place, so errors can leave a partially consumed buffer);
`panic` models a Rust abort (out-of-bounds index); `fuelOut` is an
artifact of the step-indexed embedding of the decoder's unbounded
recursion and is unreachable from `decodeEntry`'s fuel choice. -/
inductive DecodeResult (α : Type) : Type
  | ok (value : α) (rest : List Nat)
  | err (e : RespError) (rest : List Nat)
  | panic
  | fuelOut
deriving Repr, DecidableEq

/-- Outcome of a read-only helper (`extra_simple_frame_data`,
`calc_total_length`): a value, an error, or a panic. -/
inductive Pres (α : Type) : Type
  | ok (a : α)
  | err (e : RespError)
  | panic
deriving Repr

mutual
/-- `impl RespEncode for ...` of `src/resp/encode.rs`, collected over the
`enum_dispatch` union: the exact byte output of `encode` per variant.
Note the source encodes a `BulkString` through `String::from_utf8_lossy`
while the declared length is the raw payload's length. -/
def encodeFrame : RespFrame → List Nat
  | .SimpleString s => 43 :: (s ++ crlfB)
  | .SimpleError s => 45 :: (s ++ crlfB)
  | .Integer i => 58 :: ((if 0 < i then [43] else []) ++ intDec i ++ crlfB)
  | .BulkString b => 36 :: (natDigits b.length ++ crlfB ++ utf8Lossy b ++ crlfB)
  | .NullBulkString => [36, 45, 49, 13, 10]
  | .Array fs => 42 :: (natDigits fs.length ++ crlfB ++ encodeList fs)
  | .Null => [95, 13, 10]
  | .NullArray => [95, 13, 10]
  | .Boolean b => [35, if b then 116 else 102, 13, 10]
  | .Double d => encodeF64 d
  | .Map es => 37 :: (natDigits es.length ++ crlfB ++ encodeEntries es)
  | .Set fs => 126 :: (natDigits fs.length ++ crlfB ++ encodeList fs)

/-- Concatenated encodings of a list of frames (the `for` loops of the
`RespArray`/`RespSet` encoders). -/
def encodeList : List RespFrame → List Nat
  | [] => []
  | f :: fs => encodeFrame f ++ encodeList fs

/-- Concatenated encodings of map entries: each key as a SimpleString,
then the value (the `RespMap` encoder's loop). -/
def encodeEntries : List (List Nat × RespFrame) → List Nat
  | [] => []
  | e :: es => (43 :: (e.1 ++ crlfB)) ++ encodeFrame e.2 ++ encodeEntries es
end

/-- Loop body of `find_crlf` (`src/resp/decode.rs`): scan from index `i`
with `cnt` CRLF pairs already seen.  On seeing `\r` at the last index the
source reads `buf[i + 1]` out of bounds: that is the `none` (panic)
outcome.  `some none` is the loop ending without the `nth` pair,
`some (some i)` the found index. -/
def findCrlfGo : List Nat → Nat → Nat → Nat → Option (Option Nat)
  | [], _, _, _ => some none
  | [a], _, _, _ => if a = 13 then none else some none
  | a :: b :: l, i, cnt, nth =>
    if a = 13 then
      if b = 10 then
        if cnt + 1 = nth then some (some i)
        else findCrlfGo (b :: l) (i + 1) (cnt + 1) nth
      else findCrlfGo (b :: l) (i + 1) cnt nth
    else findCrlfGo (b :: l) (i + 1) cnt nth

/-- `find_crlf(buf, nth)` of `src/resp/decode.rs`. -/
def findCrlf (buf : List Nat) (nth : Nat) : Option (Option Nat) :=
  findCrlfGo buf 0 0 nth

/-- Does `pfx` start the buffer (`buf.starts_with`)? -/
def startsWithB : List Nat → List Nat → Bool
  | [], _ => true
  | _ :: _, [] => false
  | p :: ps, b :: bs => p == b && startsWithB ps bs

/-- `extra_simple_frame_data(prefix, buf)` of `src/resp/decode.rs`:
require three buffered bytes, the prefix, and a first CRLF, whose index is
returned.  The buffer is only read. -/
def extraSimpleFrameData (pfx : List Nat) (buf : List Nat) : Pres Nat :=
  if buf.length < 3 then .err .Incomplete
  else if !startsWithB pfx buf then .err .InvalidFrame
  else
    match findCrlf buf 1 with
    | none => .panic
    | some none => .err .Incomplete
    | some (some i) => .ok i

/-- `calc_total_length(buf, prefix)` of `src/resp/decode.rs`: the first
CRLF index and the element count parsed from the bytes between the prefix
and that CRLF. -/
def calcTotalLength (pfx : List Nat) (buf : List Nat) : Pres (Nat × Nat) :=
  match extraSimpleFrameData pfx buf with
  | .panic => .panic
  | .err e => .err e
  | .ok i =>
    match parseUsize (utf8Lossy ((buf.drop pfx.length).take (i - pfx.length))) with
    | some n => .ok (i, n)
    | none => .err .ParseIntError

/-- `impl RespDecode for SimpleString`: the source shadows the buffer with
a local vector, so it consumes nothing; it collects every byte of the
whole buffer other than `+`, `\r`, `\n` and returns that as the string. -/
def decodeSimpleString (buf : List Nat) : DecodeResult RespFrame :=
  .ok (.SimpleString (utf8Lossy
        (buf.filter fun b => !(b == 43 || b == 13 || b == 10)))) buf

/-- `impl RespDecode for RespNull`: succeeds only when the first byte is
`_` and the whole buffer has length exactly 3; reads `buf[0]` before any
length check, so an empty buffer panics; consumes nothing. -/
def decodeNull (buf : List Nat) : DecodeResult RespFrame :=
  match buf with
  | [] => .panic
  | b :: t =>
    if b = 95 ∧ (b :: t).length = 3 then .ok .Null (b :: t)
    else .err .InvalidFrameType (b :: t)

/-- `impl RespDecode for bool`: locate the first CRLF, split it off, and
compare the byte between the `#` and the CRLF with `t`/`f`. -/
def decodeBool (buf : List Nat) : DecodeResult RespFrame :=
  match extraSimpleFrameData [35] buf with
  | .panic => .panic
  | .err e => .err e buf
  | .ok i =>
    let data := buf.take (i + 2)
    let rest := buf.drop (i + 2)
    let s := utf8Lossy ((data.drop 1).take (i - 1))
    if s = [116] then .ok (.Boolean true) rest
    else if s = [102] then .ok (.Boolean false) rest
    else .err .InvalidFrame rest

/-- `impl RespDecode for f64`: split off through the first CRLF, then
parse the bytes between the `,` and the CRLF (the split happens before the
parse, so a parse failure still consumes the frame's bytes). -/
def decodeDouble (buf : List Nat) : DecodeResult RespFrame :=
  match extraSimpleFrameData [44] buf with
  | .panic => .panic
  | .err e => .err e buf
  | .ok i =>
    let data := buf.take (i + 2)
    let rest := buf.drop (i + 2)
    match parseF64 (utf8Lossy ((data.drop 1).take (i - 1))) with
    | some q => .ok (.Double q) rest
    | none => .err .ParseFloatError rest

/-- `impl RespDecode for BulkString`: find the second CRLF, split off
through it, and return the bytes strictly between the first CRLF and the
second (the declared length between `$` and the first CRLF is never
parsed or checked). -/
def decodeBulkString (buf : List Nat) : DecodeResult RespFrame :=
  match findCrlf buf 2 with
  | none => .panic
  | some none => .err .Incomplete buf
  | some (some second) =>
    match extraSimpleFrameData [36] buf with
    | .panic => .panic
    | .err e => .err e buf
    | .ok first =>
      .ok (.BulkString ((buf.take (second + 2)).drop (first + 2) |>.take
            (second - (first + 2)))) (buf.drop (second + 2))

/-- Element loop shared by `RespArray::decode` and `RespSet::decode`:
decode `n` elements in sequence with the supplied element decoder,
threading the buffer; the first error stops the loop and is returned with
the buffer as that element decode left it. -/
def decodeElems (dec : List Nat → DecodeResult RespFrame) :
    Nat → List Nat → DecodeResult (List RespFrame)
  | 0, buf => .ok [] buf
  | n + 1, buf =>
    match dec buf with
    | .ok v b =>
      match decodeElems dec n b with
      | .ok vs b2 => .ok (v :: vs) b2
      | .err e b2 => .err e b2
      | .panic => .panic
      | .fuelOut => .fuelOut
    | .err e b => .err e b
    | .panic => .panic
    | .fuelOut => .fuelOut

/-- `RespArray::decode` / `RespSet::decode` (they differ only in tag and
constructor): read the count header, advance the buffer past it
(`buf.advance`) before any element has been checked, then decode the
announced number of elements. -/
def decodeAgg (tag : Nat) (mk : List RespFrame → RespFrame)
    (dec : List Nat → DecodeResult RespFrame) (buf : List Nat) :
    DecodeResult RespFrame :=
  match calcTotalLength [tag] buf with
  | .panic => .panic
  | .err e => .err e buf
  | .ok p =>
    match decodeElems dec p.2 (buf.drop (p.1 + 2)) with
    | .ok vs b => .ok (mk vs) b
    | .err e b => .err e b
    | .panic => .panic
    | .fuelOut => .fuelOut

/-- `impl RespDecode for RespFrame` (`src/resp/decode.rs`): dispatch on
the peeked first byte; any other first byte - including the `:`/`-`/`%`
tags whose branches the source leaves commented out - and the empty buffer
yield `Incomplete`.  The recursion through Array/Set elements is
step-indexed by `fuel`; one unit is consumed per aggregate nesting level,
matching the source where each nesting level consumes header bytes. -/
def decodeFrame : Nat → List Nat → DecodeResult RespFrame
  | 0, _ => .fuelOut
  | fuel + 1, buf =>
    match buf.head? with
    | none => .err .Incomplete buf
    | some b =>
      if b = 43 then decodeSimpleString buf
      else if b = 95 then decodeNull buf
      else if b = 35 then decodeBool buf
      else if b = 44 then decodeDouble buf
      else if b = 36 then decodeBulkString buf
      else if b = 42 then decodeAgg 42 RespFrame.Array (decodeFrame fuel) buf
      else if b = 126 then decodeAgg 126 RespFrame.Set (decodeFrame fuel) buf
      else .err .Incomplete buf

/-- The decode entry point `RespFrame::decode(buf)`: fuel one more than
the buffer length always exceeds the aggregate nesting depth (every
nesting level first consumes a header of at least three bytes), so
`fuelOut` is unreachable from here. -/
def decodeEntry (buf : List Nat) : DecodeResult RespFrame :=
  decodeFrame (buf.length + 1) buf

example : decodeEntry (asciiBytes "#t\r\n") = .ok (.Boolean true) [] := rfl
example : decodeEntry (asciiBytes "#t\r") = .panic := rfl
example : decodeEntry (asciiBytes "*2\r\n#t\r\n") = .err .Incomplete [] := rfl
example :
    decodeEntry (asciiBytes "$5\r\nHello\r\n") =
      .ok (.BulkString (asciiBytes "Hello")) [] := rfl
example :
    decodeEntry (asciiBytes "+OK\r\n \r\nHello\r\n") =
      .ok (.SimpleString (asciiBytes "OK Hello")) (asciiBytes "+OK\r\n \r\nHello\r\n") := rfl

example : encodeFrame (.Integer 5) = asciiBytes ":+5\r\n" := rfl
example : encodeFrame (.BulkString (asciiBytes "hello")) = asciiBytes "$5\r\nhello\r\n" := rfl

/-- `enum CommandError` of `src/cmd/mod.rs` with its message payloads
(`FromUTF8Error` wraps `std::string::FromUtf8Error`, whose own display
text is elided - no claim reads it). -/
inductive CommandError : Type
  | InvalidCommand (msg : List Nat)
  | InvalidArgument (msg : List Nat)
  | FromUTF8Error
deriving Repr

/-- `e.to_string()` of a `CommandError`, following its `thiserror`
`#[error(...)]` attributes. -/
def CommandError.display : CommandError → List Nat
  | .InvalidCommand m => asciiBytes "Invalid command: " ++ m
  | .InvalidArgument m => asciiBytes "Invalid argument: " ++ m
  | .FromUTF8Error => asciiBytes "Utf8 error: invalid utf-8"

/-- `enum Command` of `src/cmd/mod.rs` (the source misspells the unknown
variant `Unrecongnized`; the name is kept).  The per-command structs of
`map.rs`/`hmap.rs` are inlined as constructor fields. -/
inductive Command : Type
  | Get (key : List Nat)
  | Set (key : List Nat) (value : RespFrame)
  | HGet (key field : List Nat)
  | HSet (key field : List Nat) (value : RespFrame)
  | HGetAll (key : List Nat)
  | Unrecongnized (reason : List Nat)
deriving Repr

/-- `to_ascii_lowercase` on bytes. -/
def toLowerAscii (s : List Nat) : List Nat :=
  s.map fun b => if 65 ≤ b ∧ b ≤ 90 then b + 32 else b

/-- `names.join(" ")`. -/
def joinSpace : List (List Nat) → List Nat
  | [] => []
  | [n] => n
  | n :: ns => n ++ [32] ++ joinSpace ns

/-- The name-token loop of `validate_command`: element `i` must be a
BulkString whose lowercased bytes equal `names[i]`. -/
def validateNames : List RespFrame → List (List Nat) → Except CommandError Unit
  | _, [] => .ok ()
  | RespFrame.BulkString cmd :: es, name :: ns =>
    if toLowerAscii cmd ≠ name then
      .error (.InvalidCommand (asciiBytes "Invalid command: expected " ++ name ++
        asciiBytes ", got " ++ utf8Lossy cmd))
    else validateNames es ns
  | _, _ :: _ =>
    .error (.InvalidCommand (asciiBytes "Command must start with a BulkString argument"))

/-- `validate_command(value, names, n_args)` of `src/cmd/mod.rs`: the
array length must equal `names.len() + n_args` exactly, then each name
token must match. -/
def validateCommand (value : List RespFrame) (names : List (List Nat))
    (nArgs : Nat) : Except CommandError Unit :=
  if value.length ≠ nArgs + names.length then
    .error (.InvalidArgument (joinSpace names ++
      asciiBytes " command must have exactly " ++ natDigits nArgs ++
      asciiBytes " arguments"))
  else validateNames value names

/-- `TryFrom<RespArray> for Get` (`src/cmd/map.rs`). -/
def tryGet (arr : List RespFrame) : Except CommandError Command := do
  validateCommand arr [asciiBytes "get"] 1
  match arr.drop 1 with
  | RespFrame.BulkString key :: _ =>
    if validUtf8 key then .ok (.Get key) else .error .FromUTF8Error
  | _ => .error (.InvalidArgument (asciiBytes "Invalid Key"))

/-- `TryFrom<RespArray> for Set` (`src/cmd/map.rs`). -/
def trySet (arr : List RespFrame) : Except CommandError Command := do
  validateCommand arr [asciiBytes "set"] 2
  match arr.drop 1 with
  | RespFrame.BulkString key :: value :: _ =>
    if validUtf8 key then .ok (.Set key value) else .error .FromUTF8Error
  | _ => .error (.InvalidArgument (asciiBytes "Invalid Key or Value"))

/-- `TryFrom<RespArray> for HGet` (`src/cmd/hmap.rs`). -/
def tryHGet (arr : List RespFrame) : Except CommandError Command := do
  validateCommand arr [asciiBytes "hget"] 2
  match arr.drop 1 with
  | RespFrame.BulkString key :: RespFrame.BulkString fld :: _ =>
    if validUtf8 key then
      if validUtf8 fld then .ok (.HGet key fld) else .error .FromUTF8Error
    else .error .FromUTF8Error
  | _ => .error (.InvalidArgument (asciiBytes "Invalid Arguments"))

/-- `TryFrom<RespArray> for HSet` (`src/cmd/hmap.rs`). -/
def tryHSet (arr : List RespFrame) : Except CommandError Command := do
  validateCommand arr [asciiBytes "hset"] 3
  match arr.drop 1 with
  | RespFrame.BulkString key :: RespFrame.BulkString fld :: value :: _ =>
    if validUtf8 key then
      if validUtf8 fld then .ok (.HSet key fld value) else .error .FromUTF8Error
    else .error .FromUTF8Error
  | _ => .error (.InvalidArgument (asciiBytes "Invalid Arguments"))

/-- `TryFrom<RespArray> for HGetAll` (`src/cmd/hmap.rs`). -/
def tryHGetAll (arr : List RespFrame) : Except CommandError Command := do
  validateCommand arr [asciiBytes "hgetall"] 1
  match arr.drop 1 with
  | RespFrame.BulkString key :: _ =>
    if validUtf8 key then .ok (.HGetAll key) else .error .FromUTF8Error
  | _ => .error (.InvalidArgument (asciiBytes "Invalid Arguments"))

/-- `TryFrom<RespFrame> for Command` (`src/cmd/mod.rs`): only an Array
frame is accepted, its first element must be a BulkString; a known name
dispatches to the per-command conversion, an unknown one converts to
`Unrecongnized("unknown command")`; an error from a matched branch is
caught and downgraded to `Unrecongnized(e.to_string())`. -/
def Command.tryFrom : RespFrame → Except CommandError Command
  | RespFrame.Array elems =>
    match elems.head? with
    | some (RespFrame.BulkString cmd) =>
      let res : Except CommandError Command :=
        if cmd = asciiBytes "get" then tryGet elems
        else if cmd = asciiBytes "set" then trySet elems
        else if cmd = asciiBytes "hget" then tryHGet elems
        else if cmd = asciiBytes "hset" then tryHSet elems
        else if cmd = asciiBytes "hgetall" then tryHGetAll elems
        else .ok (.Unrecongnized (asciiBytes "unknown command"))
      match res with
      | .ok c => .ok c
      | .error e => .ok (.Unrecongnized e.display)
    | _ => .error (.InvalidCommand (asciiBytes "Invalid command"))
  | _ => .error (.InvalidCommand (asciiBytes "Not an array"))

/-- Lookup in an association list keyed by byte strings. -/
def alistGet {α : Type} (m : List (List Nat × α)) (k : List Nat) : Option α :=
  match m with
  | [] => none
  | e :: es => if e.1 = k then some e.2 else alistGet es k

/-- Insert-or-replace in an association list keyed by byte strings. -/
def alistPut {α : Type} (m : List (List Nat × α)) (k : List Nat) (v : α) :
    List (List Nat × α) :=
  match m with
  | [] => [(k, v)]
  | e :: es => if e.1 = k then (k, v) :: es else e :: alistPut es k v

/-- Modelled from the spec: the `Backend` type lives in `src/backend.rs`,
which is not among the staged sources (the command layer references it as
`crate::backend::Backend`).  Spec section 3: two maps, a flat
`strings: key → Frame` store and a nested
`hashes: key → (field → Frame)` store, here as association lists; the
concurrency of the real store is outside this sequential model. -/
structure Backend : Type where
  strings : List (List Nat × RespFrame)
  hashes : List (List Nat × List (List Nat × RespFrame))

/-- The empty backend (`Backend::new()`). -/
def Backend.empty : Backend := ⟨[], []⟩

/-- Strict lexicographic order on byte strings (for the `BTreeMap` key
order of a response map). -/
def listLtB : List Nat → List Nat → Bool
  | [], [] => false
  | [], _ :: _ => true
  | _ :: _, [] => false
  | x :: xs, y :: ys => if x < y then true else if y < x then false else listLtB xs ys

/-- `BTreeMap::insert` on a key-sorted association list. -/
def insertEntry (k : List Nat) (v : RespFrame) :
    List (List Nat × RespFrame) → List (List Nat × RespFrame)
  | [] => [(k, v)]
  | e :: es =>
    if k = e.1 then (k, v) :: es
    else if listLtB k e.1 then (k, v) :: e :: es
    else e :: insertEntry k v es

/-- The `HGetAll` response construction: every (field, value) pair
inserted into a fresh `RespMap` (so the result is key-sorted). -/
def sortEntries : List (List Nat × RespFrame) → List (List Nat × RespFrame)
  | [] => []
  | e :: es => insertEntry e.1 e.2 (sortEntries es)

/-- The process-wide `RESP_OK` constant of `src/cmd/mod.rs`. -/
def RESPOK : RespFrame := .SimpleString (asciiBytes "OK")

/-- `format!`'s `{:?}` escaping of a string's bytes (quote, backslash and
the common control characters; the `\u` escapes of other control
characters are elided - no claim reaches them). -/
def escDebug (s : List Nat) : List Nat :=
  s.flatMap fun b =>
    if b = 34 then [92, 34]
    else if b = 92 then [92, 92]
    else if b = 13 then [92, 114]
    else if b = 10 then [92, 110]
    else if b = 9 then [92, 116]
    else [b]

/-- `format!("{:?}", s)` for a string: the escaped bytes in quotes. -/
def debugQuote (s : List Nat) : List Nat := 34 :: (escDebug s ++ [34])

/-- `CommandExecutor::execute` collected over the command union
(`src/cmd/mod.rs`, `map.rs`, `hmap.rs`): the response frame and the
backend afterwards (the Rust `&Backend` parameter mutates in place; the
model threads the state).  `Get`/`HGet`/`HGetAll` and `Unrecongnized`
never change the backend; the store operations themselves follow the
spec-modelled `Backend` above. -/
def Command.execute : Command → Backend → RespFrame × Backend
  | .Get key, b =>
    (match alistGet b.strings key with
     | some v => v
     | none => .Null, b)
  | .Set key v, b => (RESPOK, { b with strings := alistPut b.strings key v })
  | .HGet key fld, b =>
    (match alistGet b.hashes key with
     | some m =>
       match alistGet m fld with
       | some v => v
       | none => .Null
     | none => .Null, b)
  | .HSet key fld v, b =>
    (RESPOK,
     { b with
        hashes :=
          alistPut b.hashes key
            (alistPut ((alistGet b.hashes key).getD []) fld v) })
  | .HGetAll key, b =>
    (match alistGet b.hashes key with
     | some m => .Map (sortEntries m)
     | none => .Null, b)
  | .Unrecongnized r, b =>
    (.SimpleError (asciiBytes "Error unknown command: " ++ debugQuote r), b)

example :
    Command.tryFrom (.Array [.BulkString (asciiBytes "get"),
      .BulkString (asciiBytes "hello")]) = .ok (.Get (asciiBytes "hello")) := rfl
example :
    Command.tryFrom (.Array [.BulkString (asciiBytes "foo"),
      .BulkString (asciiBytes "bar")]) =
      .ok (.Unrecongnized (asciiBytes "unknown command")) := rfl
example :
    Command.tryFrom (.Array [.BulkString (asciiBytes "set"),
      .BulkString (asciiBytes "k")]) =
      .ok (.Unrecongnized
        (asciiBytes "Invalid argument: set command must have exactly 2 arguments")) := rfl
example :
    Command.execute (.Unrecongnized (asciiBytes "unknown command")) Backend.empty =
      (.SimpleError (asciiBytes "Error unknown command: \"unknown command\""),
        Backend.empty) := rfl

/-! ## Helper lemmas -/

theorem natDigitsAux_digit :
    ∀ fuel n, n < fuel → ∀ d ∈ natDigitsAux fuel n, 48 ≤ d ∧ d ≤ 57 := by
  intro fuel
  induction fuel with
  | zero => intro n h; omega
  | succ fuel ih =>
    intro n h d hd
    by_cases h10 : n < 10
    · simp [natDigitsAux, h10] at hd
      omega
    · simp only [natDigitsAux, if_neg h10, List.mem_append, List.mem_singleton] at hd
      rcases hd with hd | hd
      · exact ih (n / 10) (by omega) d hd
      · have : n % 10 < 10 := Nat.mod_lt _ (by omega)
        omega

theorem natDigits_digit (n : Nat) : ∀ d ∈ natDigits n, 48 ≤ d ∧ d ≤ 57 :=
  natDigitsAux_digit (n + 1) n (Nat.lt_succ_self n)

theorem natDigitsAux_ne_nil :
    ∀ fuel n, n < fuel → natDigitsAux fuel n ≠ [] := by
  intro fuel
  induction fuel with
  | zero => intro n h; omega
  | succ fuel _ =>
    intro n _
    by_cases h10 : n < 10 <;> simp [natDigitsAux, h10]

theorem natDigits_ne_nil (n : Nat) : natDigits n ≠ [] :=
  natDigitsAux_ne_nil (n + 1) n (Nat.lt_succ_self n)

theorem digitsVal_natDigitsAux :
    ∀ fuel n, n < fuel → digitsVal (natDigitsAux fuel n) = n := by
  intro fuel
  induction fuel with
  | zero => intro n h; omega
  | succ fuel ih =>
    intro n h
    by_cases h10 : n < 10
    · simp [natDigitsAux, h10, digitsVal]
    · simp only [natDigitsAux, if_neg h10, digitsVal, List.foldl_append]
      have hrec := ih (n / 10) (by omega)
      simp only [digitsVal] at hrec
      simp [hrec]
      omega

theorem digitsToNat?_natDigits (n : Nat) : digitsToNat? (natDigits n) = some n := by
  have hall : (natDigits n).all (fun b => decide (48 ≤ b ∧ b ≤ 57)) = true := by
    rw [List.all_eq_true]
    intro d hd
    exact decide_eq_true (natDigits_digit n d hd)
  rw [digitsToNat?, if_pos ⟨natDigits_ne_nil n, hall⟩,
    natDigits, digitsVal_natDigitsAux (n + 1) n (Nat.lt_succ_self n)]

theorem parseUsize_natDigits (n : Nat) : parseUsize (natDigits n) = some n := by
  obtain ⟨b, r, hbr⟩ : ∃ b r, natDigits n = b :: r := by
    cases h : natDigits n with
    | nil => exact absurd h (natDigits_ne_nil n)
    | cons b r => exact ⟨b, r, rfl⟩
  have hb : 48 ≤ b ∧ b ≤ 57 := natDigits_digit n b (by rw [hbr]; simp)
  rw [hbr, parseUsize, if_neg (by omega), ← hbr, digitsToNat?_natDigits]

theorem utf8Lossy_ascii :
    ∀ l : List Nat, (∀ b ∈ l, b ≤ 127) → utf8Lossy l = l := by
  intro l
  induction l with
  | nil => intro _; rfl
  | cons b t ih =>
    intro h
    have hb : b ≤ 127 := h b (by simp)
    conv_lhs => rw [utf8Lossy.eq_def]
    simp only [if_pos hb]
    rw [ih fun x hx => h x (by simp [hx])]

theorem utf8Lossy_natDigits (n : Nat) : utf8Lossy (natDigits n) = natDigits n :=
  utf8Lossy_ascii _ fun b hb => (natDigits_digit n b hb).2.trans (by omega)

/-! ## C5: decode aborts on `#t\r` (out-of-bounds read in `find_crlf`) -/

/-- C5 claims decode always terminates with one of the three documented
outcomes and never reads out of bounds, naming the input `#t\r`.  The
code violates this: on `#t\r` the scan in `find_crlf` sees `\r` at the
last index and reads `buf[i + 1]` one past the end of the buffer, which
panics.  This theorem evaluates the model at that failing input. -/
theorem decode_panics_on_hash_t_cr : decodeEntry (asciiBytes "#t\r") = .panic := rfl

/-! ## C3: bytes are consumed on the Incomplete outcome -/

/-- C3 claims no bytes are consumed when decode returns Incomplete, in
particular when an Array count header is buffered but an element is
missing.  The code violates this: `RespArray::decode` advances the buffer
past the count header before decoding elements, so on `*2\r\n#t\r\n`
(complete header, one complete element, second element missing) the
Incomplete outcome leaves the buffer empty - all eight bytes consumed. -/
theorem array_incomplete_consumes_bytes :
    decodeEntry (asciiBytes "*2\r\n#t\r\n") = .err .Incomplete [] ∧
      asciiBytes "*2\r\n#t\r\n" ≠ [] := ⟨rfl, by decide⟩

/-! ## C2: what the decoder signals for bad tags, bad lengths, bad
boolean/double payloads -/

/-- C2 counterexample: the claim says an unrecognized first byte (and a
declared length that fails to parse) yields the non-retryable malformed
error.  The code instead returns the retryable `Incomplete` for an
unrecognized tag byte such as `:`; and a bulk-string declared length is
never parsed at all - `$abc\r\nhi\r\n` decodes successfully. -/
theorem unknown_tag_gives_incomplete :
    decodeEntry (asciiBytes ":1\r\n") = .err .Incomplete (asciiBytes ":1\r\n") ∧
      decodeEntry (asciiBytes "$abc\r\nhi\r\n") =
        .ok (.BulkString (asciiBytes "hi")) [] :=
  ⟨rfl, rfl⟩

/-- C2 amended: an unrecognized first byte yields `Incomplete` (retryable),
with the buffer untouched, not a malformed error; an Array/Set count that
fails to parse yields the malformed `ParseIntError`; a boolean payload
outside `t`/`f` yields the malformed `InvalidFrame`; a double payload
outside the float grammar yields the malformed `ParseFloatError`; bulk
string declared lengths are never parsed. -/
theorem malformed_error_classification (b : Nat) (rest : List Nat)
    (h : ¬(b = 43 ∨ b = 95 ∨ b = 35 ∨ b = 44 ∨ b = 36 ∨ b = 42 ∨ b = 126)) :
    decodeEntry (b :: rest) = .err .Incomplete (b :: rest) ∧
      decodeEntry (asciiBytes "*x\r\n") = .err .ParseIntError (asciiBytes "*x\r\n") ∧
      decodeEntry (asciiBytes "#x\r\n") = .err .InvalidFrame [] ∧
      decodeEntry (asciiBytes ",abc\r\n") = .err .ParseFloatError [] := by
  refine ⟨?_, rfl, rfl, rfl⟩
  push_neg at h
  obtain ⟨h1, h2, h3, h4, h5, h6, h7⟩ := h
  simp [decodeEntry, decodeFrame, h1, h2, h3, h4, h5, h6, h7]

/-- Witness for `malformed_error_classification` at the concrete
unrecognized tag byte `:` (58). -/
theorem malformed_error_classification_witness :
    decodeEntry (58 :: asciiBytes "1\r\n") = .err .Incomplete (58 :: asciiBytes "1\r\n") ∧
      decodeEntry (asciiBytes "*x\r\n") = .err .ParseIntError (asciiBytes "*x\r\n") ∧
      decodeEntry (asciiBytes "#x\r\n") = .err .InvalidFrame [] ∧
      decodeEntry (asciiBytes ",abc\r\n") = .err .ParseFloatError [] :=
  malformed_error_classification 58 (asciiBytes "1\r\n") (by decide)

/-! ## C8: SET arity enforcement -/

/-- C8: converting an Array of BulkStrings to a Command enforces SET arity
exactly: a 2-element `["set", key]` and a 4-element
`["set", key, value, extra]` are both rejected (they convert to
`Unrecongnized`, never to a Set command), while the 3-element
`["set", key, value]` yields the Set command carrying that key and value
(for any UTF-8-valid key, as `String::from_utf8` requires). -/
theorem set_arity_enforced (k1 k2 v2 e2 v : RespFrame) (key : List Nat)
    (hkey : validUtf8 key = true) :
    Command.tryFrom (.Array [.BulkString (asciiBytes "set"), k1]) =
      .ok (.Unrecongnized
        (asciiBytes "Invalid argument: set command must have exactly 2 arguments")) ∧
    Command.tryFrom (.Array [.BulkString (asciiBytes "set"), k2, v2, e2]) =
      .ok (.Unrecongnized
        (asciiBytes "Invalid argument: set command must have exactly 2 arguments")) ∧
    Command.tryFrom (.Array [.BulkString (asciiBytes "set"), .BulkString key, v]) =
      .ok (.Set key v) := by
  refine ⟨rfl, rfl, ?_⟩
  simp [Command.tryFrom, trySet, validateCommand, validateNames, hkey,
    toLowerAscii, asciiBytes, Bind.bind, Except.bind]

/-- Witness for `set_arity_enforced` at concrete frames. -/
theorem set_arity_enforced_witness :
    Command.tryFrom (.Array [.BulkString (asciiBytes "set"),
        .BulkString (asciiBytes "k")]) =
      .ok (.Unrecongnized
        (asciiBytes "Invalid argument: set command must have exactly 2 arguments")) ∧
    Command.tryFrom (.Array [.BulkString (asciiBytes "set"),
        .BulkString (asciiBytes "k"), .BulkString (asciiBytes "v"),
        .BulkString (asciiBytes "x")]) =
      .ok (.Unrecongnized
        (asciiBytes "Invalid argument: set command must have exactly 2 arguments")) ∧
    Command.tryFrom (.Array [.BulkString (asciiBytes "set"),
        .BulkString (asciiBytes "key"), .BulkString (asciiBytes "value")]) =
      .ok (.Set (asciiBytes "key") (.BulkString (asciiBytes "value"))) :=
  set_arity_enforced (.BulkString (asciiBytes "k")) (.BulkString (asciiBytes "k"))
    (.BulkString (asciiBytes "v")) (.BulkString (asciiBytes "x"))
    (.BulkString (asciiBytes "value")) (asciiBytes "key") (by decide)

/-! ## C9: unknown command classification and its error text -/

/-- C9 counterexample: `["foo", "bar"]` does convert (to `Unrecongnized`)
and executing it yields a SimpleError, but the claim's assertion that the
error text references "foo" is false: the stored reason is the constant
"unknown command", so the produced text is the fixed string
`Error unknown command: "unknown command"`, which does not contain "foo". -/
theorem unknown_command_text_no_foo :
    Command.tryFrom (.Array [.BulkString (asciiBytes "foo"),
        .BulkString (asciiBytes "bar")]) =
      .ok (.Unrecongnized (asciiBytes "unknown command")) ∧
    (Command.execute (.Unrecongnized (asciiBytes "unknown command"))
        Backend.empty).1 =
      .SimpleError (asciiBytes "Error unknown command: \"unknown command\"") ∧
    ¬ (asciiBytes "foo" <:+:
        asciiBytes "Error unknown command: \"unknown command\"") :=
  ⟨rfl, rfl, by decide⟩

/-- C9 amended: `["foo", "bar"]` converts successfully to
`Unrecongnized "unknown command"` (not a hard error), and executing that
command against any backend returns a SimpleError frame whose text is the
fixed string `Error unknown command: "unknown command"` (the command name
"foo" is not referenced) while leaving the backend unchanged. -/
theorem unknown_command_executes (b : Backend) :
    Command.tryFrom (.Array [.BulkString (asciiBytes "foo"),
        .BulkString (asciiBytes "bar")]) =
      .ok (.Unrecongnized (asciiBytes "unknown command")) ∧
    Command.execute (.Unrecongnized (asciiBytes "unknown command")) b =
      (.SimpleError (asciiBytes "Error unknown command: \"unknown command\""), b) :=
  ⟨rfl, rfl⟩

/-! ## Round-trip machinery -/

/-- `true` when the byte list contains no adjacent `\r\n` pair. -/
def crlfFree : List Nat → Bool
  | [] => true
  | [_] => true
  | a :: b :: l => !(a == 13 && b == 10) && crlfFree (b :: l)

/-- Byte lists without any `\r` are CRLF-free. -/
theorem crlfFree_of_no13 : ∀ l : List Nat, (∀ b ∈ l, b ≠ 13) → crlfFree l = true := by
  intro l
  induction l with
  | nil => intro _; rfl
  | cons a t ih =>
    intro h
    cases t with
    | nil => rfl
    | cons b t2 =>
      have ha : a ≠ 13 := h a (by simp)
      have ht : crlfFree (b :: t2) = true := ih fun x hx => h x (by simp at hx ⊢; tauto)
      simp [crlfFree, ht, ha]

theorem crlfFree_cons_of_ne {a : Nat} (l : List Nat) (ha : a ≠ 13) :
    crlfFree (a :: l) = crlfFree l := by
  cases l with
  | nil => rfl
  | cons b t => simp [crlfFree, ha]

theorem crlfFree_tail {a : Nat} {l : List Nat} (h : crlfFree (a :: l) = true) :
    crlfFree l = true := by
  cases l with
  | nil => rfl
  | cons b t =>
    simp only [crlfFree, Bool.and_eq_true] at h
    exact h.2

/-- The scan of `find_crlf` over a CRLF-free block `pre` followed by a
CRLF: it counts the pair right after `pre` and either returns its index or
carries on from the `\n`. -/
theorem findCrlfGo_skip :
    ∀ (pre suf : List Nat) (i cnt nth : Nat), crlfFree pre = true →
      findCrlfGo (pre ++ 13 :: 10 :: suf) i cnt nth =
        if cnt + 1 = nth then some (some (i + pre.length))
        else findCrlfGo (10 :: suf) (i + pre.length + 1) (cnt + 1) nth := by
  intro pre
  induction pre with
  | nil =>
    intro suf i cnt nth _
    simp [findCrlfGo]
  | cons a pre ih =>
    intro suf i cnt nth hfree
    have hrec := ih suf (i + 1) cnt nth (crlfFree_tail hfree)
    cases pre with
    | nil =>
      by_cases ha : a = 13
      · subst ha
        rw [List.cons_append, List.nil_append, findCrlfGo, if_pos rfl, if_neg (by omega)]
        simp only [List.nil_append] at hrec
        rw [hrec]
        simp [Nat.add_comm, Nat.add_assoc, Nat.add_left_comm]
      · rw [List.cons_append, List.nil_append, findCrlfGo, if_neg ha]
        simp only [List.nil_append] at hrec
        rw [hrec]
        simp [Nat.add_comm, Nat.add_assoc, Nat.add_left_comm]
    | cons b pre2 =>
      by_cases ha : a = 13
      · subst ha
        have hb : b ≠ 10 := by
          intro hb10
          subst hb10
          simp [crlfFree] at hfree
        rw [List.cons_append, List.cons_append, findCrlfGo, if_pos rfl, if_neg hb,
          ← List.cons_append, hrec]
        simp [List.length_cons, Nat.add_comm, Nat.add_assoc, Nat.add_left_comm]
      · rw [List.cons_append, List.cons_append, findCrlfGo, if_neg ha,
          ← List.cons_append, hrec]
        simp [List.length_cons, Nat.add_comm, Nat.add_assoc, Nat.add_left_comm]

theorem findCrlf_first (pre suf : List Nat) (h : crlfFree pre = true) :
    findCrlf (pre ++ 13 :: 10 :: suf) 1 = some (some pre.length) := by
  rw [findCrlf, findCrlfGo_skip pre suf 0 0 1 h, if_pos rfl, Nat.zero_add]

theorem findCrlf_second (pre mid suf : List Nat) (hp : crlfFree pre = true)
    (hm : crlfFree mid = true) :
    findCrlf (pre ++ 13 :: 10 :: (mid ++ 13 :: 10 :: suf)) 2 =
      some (some (pre.length + 2 + mid.length)) := by
  rw [findCrlf, findCrlfGo_skip pre _ 0 0 2 hp, if_neg (by omega)]
  have hsh : (10 : Nat) :: (mid ++ 13 :: 10 :: suf) = (10 :: mid) ++ 13 :: 10 :: suf := rfl
  rw [hsh, findCrlfGo_skip (10 :: mid) suf _ 1 2
    (by rw [crlfFree_cons_of_ne mid (by omega)]; exact hm), if_pos rfl]
  have : 0 + pre.length + 1 + (10 :: mid).length = pre.length + 2 + mid.length := by
    simp [List.length_cons]; omega
  rw [this]

theorem extra_frame_data (t : Nat) (pre suf : List Nat)
    (hfree : crlfFree (t :: pre) = true) :
    extraSimpleFrameData [t] ((t :: pre) ++ 13 :: 10 :: suf) = .ok (pre.length + 1) := by
  rw [extraSimpleFrameData, if_neg (by simp [List.length_append, List.length_cons]; omega)]
  rw [if_neg (by simp [startsWithB])]
  rw [findCrlf_first (t :: pre) suf hfree]
  simp [List.length_cons]

theorem drop_append_len {l1 l2 : List Nat} {n : Nat} (h : l1.length = n) :
    (l1 ++ l2).drop n = l2 := by
  subst h
  simp

theorem take_append_len {l1 l2 : List Nat} {n : Nat} (h : l1.length = n) :
    (l1 ++ l2).take n = l1 := by
  subst h
  simp

theorem crlfFree_tagged_digits (t m : Nat) (ht : t ≠ 13) :
    crlfFree (t :: natDigits m) = true := by
  apply crlfFree_of_no13
  intro b hb
  rcases List.mem_cons.mp hb with hb | hb
  · omega
  · have := natDigits_digit m b hb
    omega

theorem decodeBulkString_encode (p rest : List Nat) (hfree : crlfFree p = true) :
    decodeBulkString ((36 :: natDigits p.length) ++ 13 :: 10 :: (p ++ 13 :: 10 :: rest)) =
      .ok (.BulkString p) rest := by
  have hL : crlfFree (36 :: natDigits p.length) = true :=
    crlfFree_tagged_digits 36 p.length (by omega)
  have h2 := findCrlf_second (36 :: natDigits p.length) p rest hL hfree
  have h1 := extra_frame_data 36 (natDigits p.length) (p ++ 13 :: 10 :: rest) hL
  simp only [decodeBulkString, h2, h1]
  have hshape : (36 :: natDigits p.length) ++ 13 :: 10 :: (p ++ 13 :: 10 :: rest) =
      ((36 :: (natDigits p.length ++ [13, 10])) ++ (p ++ [13, 10])) ++ rest := by
    simp
  rw [hshape]
  have hsec : (36 :: natDigits p.length).length + 2 + p.length + 2 =
      ((36 :: (natDigits p.length ++ [13, 10])) ++ (p ++ [13, 10])).length := by
    simp [List.length_cons, List.length_append]
    omega
  rw [hsec, List.drop_left, List.take_left]
  rw [@drop_append_len (36 :: (natDigits p.length ++ [13, 10])) (p ++ [13, 10]) _
    (by simp [List.length_cons, List.length_append])]
  have harg : (36 :: natDigits p.length).length + 2 + p.length -
      ((natDigits p.length).length + 1 + 2) = p.length := by
    simp [List.length_cons]
  rw [harg, take_append_len rfl]

theorem decodeBool_encode (c : Nat) (rest : List Nat) (hc : c = 116 ∨ c = 102) :
    decodeBool (35 :: c :: 13 :: 10 :: rest) = .ok (.Boolean (c = 116)) rest := by
  have hfree : crlfFree [35, c] = true :=
    crlfFree_of_no13 _ (by intro b hb; simp at hb; omega)
  have h1 : extraSimpleFrameData [35] (35 :: c :: 13 :: 10 :: rest) = .ok 2 :=
    extra_frame_data 35 [c] rest hfree
  simp only [decodeBool, h1]
  have hdata : (((35 :: c :: 13 :: 10 :: rest).take (2 + 2)).drop 1).take (2 - 1) = [c] := by
    simp
  simp only [hdata]
  rw [utf8Lossy_ascii [c] (by intro b hb; simp at hb; omega)]
  rcases hc with hc | hc <;> subst hc <;> simp

theorem calcTotalLength_encode (t n : Nat) (body : List Nat) (ht : t ≠ 13) :
    calcTotalLength [t] ((t :: natDigits n) ++ 13 :: 10 :: body) =
      .ok ((natDigits n).length + 1, n) := by
  have h1 := extra_frame_data t (natDigits n) body (crlfFree_tagged_digits t n ht)
  simp only [calcTotalLength, h1]
  have hdrop : (((t :: natDigits n) ++ 13 :: 10 :: body).drop ([t] : List Nat).length) =
      natDigits n ++ 13 :: 10 :: body := by simp
  have htake : ((natDigits n ++ 13 :: 10 :: body).take
      ((natDigits n).length + 1 - ([t] : List Nat).length)) = natDigits n := by
    apply take_append_len
    simp
  rw [hdrop, htake, utf8Lossy_natDigits, parseUsize_natDigits]

theorem decodeAgg_encode (t : Nat) (ht : t ≠ 13) (mk : List RespFrame → RespFrame)
    (dec : List Nat → DecodeResult RespFrame) (n : Nat) (body rest : List Nat)
    (vs : List RespFrame) (helems : decodeElems dec n body = .ok vs rest) :
    decodeAgg t mk dec ((t :: natDigits n) ++ 13 :: 10 :: body) = .ok (mk vs) rest := by
  simp only [decodeAgg, calcTotalLength_encode t n body ht]
  have hdrop : ((t :: natDigits n) ++ 13 :: 10 :: body).drop
      ((natDigits n).length + 1 + 2) = body := by
    have hsh : (t :: natDigits n) ++ 13 :: 10 :: body =
        ((t :: natDigits n) ++ [13, 10]) ++ body := by simp
    rw [hsh]
    apply drop_append_len
    simp [List.length_cons, List.length_append]
  rw [hdrop, helems]

mutual
/-- The class of frames whose encoding decodes back exactly (see the
round-trip theorems): Booleans, BulkStrings whose payload survives the
encoder's lossy UTF-8 conversion and contains no CRLF pair, and
Arrays/Sets of such frames. -/
def safeB : RespFrame → Bool
  | .Boolean _ => true
  | .BulkString p => (utf8Lossy p == p) && crlfFree p
  | .Array fs => safeList fs
  | .Set fs => safeList fs
  | _ => false

def safeList : List RespFrame → Bool
  | [] => true
  | f :: fs => safeB f && safeList fs
end

mutual
/-- Aggregate nesting depth of a frame: the step index `decodeFrame`
consumes per nesting level. -/
def depthF : RespFrame → Nat
  | .Array fs => depthList fs + 1
  | .Set fs => depthList fs + 1
  | _ => 1

def depthList : List RespFrame → Nat
  | [] => 0
  | f :: fs => max (depthF f) (depthList fs)
end

theorem depthF_pos (f : RespFrame) : 1 ≤ depthF f := by
  cases f <;> simp [depthF]

mutual
/-- Round-trip with exact consumption for safe frames: decoding the
encoding of a safe frame from the front of any buffer succeeds with the
original frame and leaves exactly the following bytes. -/
theorem safeRT : ∀ (f : RespFrame), safeB f = true → ∀ (rest : List Nat) (fuel : Nat),
    depthF f ≤ fuel → decodeFrame fuel (encodeFrame f ++ rest) = .ok f rest
  | .Boolean b => by
    intro _ rest fuel hfuel
    have h1 : 1 ≤ fuel := le_trans (depthF_pos _) hfuel
    obtain ⟨k, rfl⟩ : ∃ k, fuel = k + 1 := ⟨fuel - 1, by omega⟩
    cases b
    · have hb := decodeBool_encode 102 rest (Or.inr rfl)
      simp [encodeFrame, decodeFrame, hb]
    · have hb := decodeBool_encode 116 rest (Or.inl rfl)
      simp [encodeFrame, decodeFrame, hb]
  | .BulkString p => by
    intro hsafe rest fuel hfuel
    simp only [safeB, Bool.and_eq_true, beq_iff_eq] at hsafe
    obtain ⟨hlossy, hfree⟩ := hsafe
    have h1 : 1 ≤ fuel := le_trans (depthF_pos _) hfuel
    obtain ⟨k, rfl⟩ : ∃ k, fuel = k + 1 := ⟨fuel - 1, by omega⟩
    have hb := decodeBulkString_encode p rest hfree
    have hshape : encodeFrame (.BulkString p) ++ rest =
        (36 :: natDigits p.length) ++ 13 :: 10 :: (p ++ 13 :: 10 :: rest) := by
      simp [encodeFrame, crlfB, hlossy]
    rw [hshape]
    simp only [List.cons_append, decodeFrame, List.head?_cons]
    norm_num
    simp only [List.cons_append] at hb
    exact hb
  | .Array fs => by
    intro hsafe rest fuel hfuel
    simp only [safeB] at hsafe
    simp only [depthF] at hfuel
    obtain ⟨k, rfl⟩ : ∃ k, fuel = k + 1 := ⟨fuel - 1, by omega⟩
    have helems := safeRTList fs hsafe rest k (by omega)
    have hagg := decodeAgg_encode 42 (by omega) RespFrame.Array (decodeFrame k)
      fs.length (encodeList fs ++ rest) rest fs helems
    have hshape : encodeFrame (.Array fs) ++ rest =
        (42 :: natDigits fs.length) ++ 13 :: 10 :: (encodeList fs ++ rest) := by
      simp [encodeFrame, crlfB]
    rw [hshape]
    simp only [List.cons_append, decodeFrame, List.head?_cons]
    norm_num
    simp only [List.cons_append] at hagg
    exact hagg
  | .Set fs => by
    intro hsafe rest fuel hfuel
    simp only [safeB] at hsafe
    simp only [depthF] at hfuel
    obtain ⟨k, rfl⟩ : ∃ k, fuel = k + 1 := ⟨fuel - 1, by omega⟩
    have helems := safeRTList fs hsafe rest k (by omega)
    have hagg := decodeAgg_encode 126 (by omega) RespFrame.Set (decodeFrame k)
      fs.length (encodeList fs ++ rest) rest fs helems
    have hshape : encodeFrame (.Set fs) ++ rest =
        (126 :: natDigits fs.length) ++ 13 :: 10 :: (encodeList fs ++ rest) := by
      simp [encodeFrame, crlfB]
    rw [hshape]
    simp only [List.cons_append, decodeFrame, List.head?_cons]
    norm_num
    simp only [List.cons_append] at hagg
    exact hagg
  | .SimpleString s => by intro hsafe; simp [safeB] at hsafe
  | .SimpleError s => by intro hsafe; simp [safeB] at hsafe
  | .Integer i => by intro hsafe; simp [safeB] at hsafe
  | .NullBulkString => by intro hsafe; simp [safeB] at hsafe
  | .Null => by intro hsafe; simp [safeB] at hsafe
  | .NullArray => by intro hsafe; simp [safeB] at hsafe
  | .Double d => by intro hsafe; simp [safeB] at hsafe
  | .Map es => by intro hsafe; simp [safeB] at hsafe

/-- Element-loop form of the round-trip: decoding `fs.length` elements
from the concatenated encodings of the safe frames `fs` yields `fs` and
leaves the following bytes. -/
theorem safeRTList : ∀ (fs : List RespFrame), safeList fs = true →
    ∀ (rest : List Nat) (fuel : Nat), depthList fs ≤ fuel →
      decodeElems (decodeFrame fuel) fs.length (encodeList fs ++ rest) = .ok fs rest
  | [] => by
    intro _ rest fuel _
    simp [encodeList, decodeElems]
  | f :: fs => by
    intro hsafe rest fuel hfuel
    simp only [safeList, Bool.and_eq_true] at hsafe
    simp only [depthList, max_le_iff] at hfuel
    have h1 := safeRT f hsafe.1 (encodeList fs ++ rest) fuel hfuel.1
    have h2 := safeRTList fs hsafe.2 rest fuel hfuel.2
    simp only [encodeList, List.length_cons, List.append_assoc, decodeElems, h1, h2]
end

mutual
/-- The nesting depth never exceeds the encoded length (each nesting
level contributes a header), so the entry point's fuel suffices. -/
theorem depthF_le_encLen : ∀ f : RespFrame, depthF f ≤ (encodeFrame f).length
  | .SimpleString s => by simp [depthF, encodeFrame]
  | .SimpleError s => by simp [depthF, encodeFrame]
  | .Integer i => by simp [depthF, encodeFrame]
  | .BulkString p => by simp [depthF, encodeFrame]
  | .NullBulkString => by simp [depthF, encodeFrame]
  | .Null => by simp [depthF, encodeFrame]
  | .NullArray => by simp [depthF, encodeFrame]
  | .Boolean b => by simp [depthF, encodeFrame]
  | .Double d => by simp [depthF, encodeFrame, encodeF64]
  | .Map es => by simp [depthF, encodeFrame]
  | .Array fs => by
    have h := depthList_le_encLen fs
    simp only [depthF, encodeFrame, List.length_cons, List.length_append]
    omega
  | .Set fs => by
    have h := depthList_le_encLen fs
    simp only [depthF, encodeFrame, List.length_cons, List.length_append]
    omega

theorem depthList_le_encLen : ∀ fs : List RespFrame,
    depthList fs ≤ (encodeList fs).length
  | [] => by simp [depthList, encodeList]
  | f :: fs => by
    have h1 := depthF_le_encLen f
    have h2 := depthList_le_encLen fs
    simp only [depthList, encodeList, List.length_append, max_le_iff]
    omega
end

/-- Entry-point round-trip for safe frames, with exact consumption. -/
theorem decodeEntry_encode_safe (f : RespFrame) (rest : List Nat)
    (hsafe : safeB f = true) :
    decodeEntry (encodeFrame f ++ rest) = .ok f rest := by
  apply safeRT f hsafe rest
  have h1 := depthF_le_encLen f
  simp only [List.length_append]
  omega

/-! ## C1: round-trip -/

/-- C1 counterexample: the claim includes Integer, SimpleError and Map
frames, but the decoder has no branch for the tags `:`, `-`, `%` (they
fall to the default arm, `Incomplete`), so their encodings never decode
back; and a SimpleString containing `+` decodes to a different value
(SimpleString decode strips every `+`, CR, LF from the buffer). -/
theorem roundtrip_fails_int_err_map :
    decodeEntry (encodeFrame (.Integer 5)) =
      .err .Incomplete (asciiBytes ":+5\r\n") ∧
    decodeEntry (encodeFrame (.SimpleError (asciiBytes "oops"))) =
      .err .Incomplete (asciiBytes "-oops\r\n") ∧
    decodeEntry (encodeFrame (.Map [(asciiBytes "key", .Null)])) =
      .err .Incomplete (asciiBytes "%1\r\n+key\r\n_\r\n") ∧
    decodeEntry (encodeFrame (.SimpleString (asciiBytes "a+b"))) =
      .ok (.SimpleString (asciiBytes "ab")) (asciiBytes "+a+b\r\n") ∧
    asciiBytes "ab" ≠ asciiBytes "a+b" :=
  ⟨rfl, rfl, rfl, rfl, by decide⟩

/-- C1 amended: decode(encode v) = v holds for the variants the decoder
supports with faithfully encoded payloads - a top-level SimpleString
without `+`/CR/LF surviving lossy UTF-8 conversion (though its bytes are
not consumed), and Booleans, BulkStrings (valid UTF-8, no CRLF pair) and
Arrays/Sets of such, whose bytes are consumed exactly. -/
theorem roundtrip_supported_variants :
    (∀ s : List Nat, (∀ b ∈ s, b ≠ 43 ∧ b ≠ 13 ∧ b ≠ 10) → utf8Lossy s = s →
      decodeEntry (encodeFrame (.SimpleString s)) =
        .ok (.SimpleString s) (encodeFrame (.SimpleString s))) ∧
    (∀ f : RespFrame, safeB f = true →
      decodeEntry (encodeFrame f) = .ok f []) := by
  constructor
  · intro s hchars hlossy
    have hfilter : (43 :: (s ++ [13, 10])).filter
        (fun b => !(b == 43 || b == 13 || b == 10)) = s := by
      have h1 : s.filter (fun b => !(b == 43 || b == 13 || b == 10)) = s :=
        List.filter_eq_self.mpr (by
          intro b hb
          have h := hchars b hb
          simp [h.1, h.2.1, h.2.2])
      simp only [List.filter_cons, List.filter_append, List.filter_nil, h1]
      norm_num
    simp only [decodeEntry, encodeFrame, crlfB, List.cons_append, List.length_cons,
      decodeFrame, List.head?_cons, if_pos rfl, decodeSimpleString]
    rw [hfilter, hlossy]
    simp
  · intro f hsafe
    have h := decodeEntry_encode_safe f [] hsafe
    simpa using h

/-- Witness for `roundtrip_supported_variants`: a concrete SimpleString
and a concrete Array of a BulkString and a Boolean. -/
theorem roundtrip_supported_variants_witness :
    decodeEntry (encodeFrame (.SimpleString (asciiBytes "OK"))) =
      .ok (.SimpleString (asciiBytes "OK"))
        (encodeFrame (.SimpleString (asciiBytes "OK"))) ∧
    decodeEntry (encodeFrame (.Array [.BulkString (asciiBytes "hello"),
        .Boolean true])) =
      .ok (.Array [.BulkString (asciiBytes "hello"), .Boolean true]) [] :=
  ⟨roundtrip_supported_variants.1 (asciiBytes "OK") (by decide) (by decide),
    roundtrip_supported_variants.2
      (.Array [.BulkString (asciiBytes "hello"), .Boolean true])
      (by simp [safeB, safeList]; decide)⟩

/-! ## C4: exact consumption of a successful decode -/

/-- C4 counterexample: a complete SimpleString frame `+OK\r\n` followed by
`X` decodes to the value `OKX` (the following byte is folded into the
value) and consumes nothing; a complete Null frame followed by `X` is
rejected outright; and even a lone Null frame consumes nothing. -/
theorem simple_string_null_consume_nothing :
    decodeEntry (asciiBytes "+OK\r\nX") =
      .ok (.SimpleString (asciiBytes "OKX")) (asciiBytes "+OK\r\nX") ∧
    decodeEntry (asciiBytes "_\r\nX") =
      .err .InvalidFrameType (asciiBytes "_\r\nX") ∧
    decodeEntry (asciiBytes "_\r\n") = .ok .Null (asciiBytes "_\r\n") :=
  ⟨rfl, rfl, rfl⟩

/-- C4 amended: Boolean, BulkString (valid UTF-8, CRLF-pair-free payload)
and Array/Set frames over these consume exactly their own bytes on a
successful decode, leaving following bytes untouched; SimpleString decode
consumes nothing and folds the rest of the buffer into its value; Null
decode consumes nothing and succeeds only when the buffer is exactly
`_\r\n`. -/
theorem exact_consumption_for_safe_frames :
    (∀ (f : RespFrame) (rest : List Nat), safeB f = true →
      decodeEntry (encodeFrame f ++ rest) = .ok f rest) ∧
    (∀ buf : List Nat, buf.head? = some 43 →
      decodeEntry buf =
        .ok (.SimpleString (utf8Lossy
          (buf.filter fun b => !(b == 43 || b == 13 || b == 10)))) buf) ∧
    decodeEntry (asciiBytes "_\r\n") = .ok .Null (asciiBytes "_\r\n") := by
  refine ⟨fun f rest hsafe => decodeEntry_encode_safe f rest hsafe, ?_, rfl⟩
  intro buf hbuf
  match buf, hbuf with
  | b :: l, hbuf =>
    have hb : b = 43 := by simpa using hbuf
    subst hb
    simp [decodeEntry, decodeFrame, decodeSimpleString]

/-- Witness for `exact_consumption_for_safe_frames`: a Boolean frame
followed by trailing bytes, and a SimpleString buffer. -/
theorem exact_consumption_witness :
    decodeEntry (encodeFrame (.Boolean true) ++ asciiBytes "XY") =
      .ok (.Boolean true) (asciiBytes "XY") ∧
    decodeEntry (asciiBytes "+OK\r\n") =
      .ok (.SimpleString (utf8Lossy
        ((asciiBytes "+OK\r\n").filter fun b => !(b == 43 || b == 13 || b == 10))))
        (asciiBytes "+OK\r\n") :=
  ⟨exact_consumption_for_safe_frames.1 (.Boolean true) (asciiBytes "XY") (by simp [safeB]),
    exact_consumption_for_safe_frames.2.1 (asciiBytes "+OK\r\n") (by decide)⟩

/-! ## C6: BulkString encoding -/

/-- C6 counterexample: the encoder passes the payload through
`String::from_utf8_lossy`, so a non-UTF-8 payload is not emitted
unchanged: the single byte `0xFF` becomes the three replacement-character
bytes while the declared length stays 1. -/
theorem bulk_encode_lossy_nonutf8 :
    encodeFrame (.BulkString [255]) =
      asciiBytes "$1\r\n" ++ [239, 191, 189] ++ asciiBytes "\r\n" ∧
    encodeFrame (.BulkString [255]) ≠
      asciiBytes "$1\r\n" ++ [255] ++ asciiBytes "\r\n" :=
  ⟨rfl, by decide⟩

/-- C6 amended: for a payload that survives lossy UTF-8 conversion
unchanged (equivalently, valid UTF-8 - CR/LF and any other bytes of a
valid encoding included), the output is exactly
`$<byte-length>\r\n<raw-bytes>\r\n`. -/
theorem bulk_encode_exact (b : List Nat) (h : utf8Lossy b = b) :
    encodeFrame (.BulkString b) =
      36 :: (natDigits b.length ++ [13, 10] ++ b ++ [13, 10]) := by
  simp [encodeFrame, crlfB, h]

/-- Witness for `bulk_encode_exact`: a payload containing CR and LF. -/
theorem bulk_encode_exact_witness :
    encodeFrame (.BulkString (asciiBytes "a\r\nb")) =
      36 :: (natDigits (asciiBytes "a\r\nb").length ++ [13, 10] ++
        asciiBytes "a\r\nb" ++ [13, 10]) :=
  bulk_encode_exact (asciiBytes "a\r\nb") (by decide)

/-! ## C10: every decoded frame is one of seven variants -/

/-- The variants a successful decode can yield, hereditarily: exactly
SimpleString, BulkString, Array, Set, Null, Boolean, Double (never
Integer, SimpleError, Map, NullBulkString, NullArray). -/
inductive GoodFrame : RespFrame → Prop
  | simpleString (s : List Nat) : GoodFrame (.SimpleString s)
  | bulkString (p : List Nat) : GoodFrame (.BulkString p)
  | null : GoodFrame .Null
  | boolean (b : Bool) : GoodFrame (.Boolean b)
  | double (d : ℚ) : GoodFrame (.Double d)
  | array (fs : List RespFrame) : (∀ f ∈ fs, GoodFrame f) → GoodFrame (.Array fs)
  | set (fs : List RespFrame) : (∀ f ∈ fs, GoodFrame f) → GoodFrame (.Set fs)

theorem decodeElems_good (dec : List Nat → DecodeResult RespFrame)
    (hdec : ∀ buf v r, dec buf = .ok v r → GoodFrame v) :
    ∀ (n : Nat) (buf : List Nat) (vs : List RespFrame) (r : List Nat),
      decodeElems dec n buf = .ok vs r → ∀ v ∈ vs, GoodFrame v := by
  intro n
  induction n with
  | zero =>
    intro buf vs r h v hv
    simp only [decodeElems] at h
    cases h
    simp at hv
  | succ n ih =>
    intro buf vs r h v hv
    simp only [decodeElems] at h
    split at h
    · rename_i v1 b1 heq1
      split at h
      · rename_i vs2 b2 heq2
        cases h
        rcases List.mem_cons.mp hv with hv | hv
        · subst hv
          exact hdec _ _ _ heq1
        · exact ih _ _ _ heq2 v hv
      · simp at h
      · simp at h
      · simp at h
    · simp at h
    · simp at h
    · simp at h

theorem decodeFrame_good :
    ∀ (fuel : Nat) (buf : List Nat) (v : RespFrame) (r : List Nat),
      decodeFrame fuel buf = .ok v r → GoodFrame v := by
  intro fuel
  induction fuel with
  | zero =>
    intro buf v r h
    simp [decodeFrame] at h
  | succ fuel ih =>
    intro buf v r h
    simp only [decodeFrame] at h
    split at h
    · simp at h
    · split_ifs at h
      · simp only [decodeSimpleString] at h
        cases h
        exact GoodFrame.simpleString _
      · simp only [decodeNull] at h
        split at h
        · simp at h
        · split_ifs at h
          cases h
          exact GoodFrame.null
      · simp only [decodeBool] at h
        split at h
        · simp at h
        · simp at h
        · split_ifs at h
          · cases h
            exact GoodFrame.boolean _
          · cases h
            exact GoodFrame.boolean _
      · simp only [decodeDouble] at h
        split at h
        · simp at h
        · simp at h
        · split at h
          · cases h
            exact GoodFrame.double _
          · simp at h
      · simp only [decodeBulkString] at h
        split at h
        · simp at h
        · simp at h
        · split at h
          · simp at h
          · simp at h
          · cases h
            exact GoodFrame.bulkString _
      · simp only [decodeAgg] at h
        split at h
        · simp at h
        · simp at h
        · split at h
          · rename_i vs b2 heq
            cases h
            exact GoodFrame.array _ (decodeElems_good _ ih _ _ _ _ heq)
          · simp at h
          · simp at h
          · simp at h
      · simp only [decodeAgg] at h
        split at h
        · simp at h
        · simp at h
        · split at h
          · rename_i vs b2 heq
            cases h
            exact GoodFrame.set _ (decodeElems_good _ ih _ _ _ _ heq)
          · simp at h
          · simp at h
          · simp at h

/-- C10: any frame a successful decode returns - recursively including
every element of a decoded Array or Set - is one of exactly seven
variants: SimpleString, BulkString, Array, Set, Null, Boolean or Double;
no input ever decodes to an Integer, SimpleError, Map, NullBulkString or
NullArray frame. -/
theorem decode_yields_seven_variants (buf : List Nat) (v : RespFrame)
    (r : List Nat) (h : decodeEntry buf = .ok v r) : GoodFrame v :=
  decodeFrame_good _ buf v r h

/-- Witness for `decode_yields_seven_variants` at the buffer `#t\r\n`. -/
theorem decode_yields_seven_variants_witness : GoodFrame (.Boolean true) :=
  decode_yields_seven_variants (asciiBytes "#t\r\n") (.Boolean true) [] rfl

/-! ## C7: double encoding notation boundary -/

theorem fracDigits_digit :
    ∀ (fuel : Nat) (f : ℚ), 0 ≤ f → f < 1 → ∀ d ∈ fracDigits f fuel, 48 ≤ d ∧ d ≤ 57 := by
  intro fuel
  induction fuel with
  | zero =>
    intro f _ _ d hd
    simp [fracDigits] at hd
  | succ fuel ih =>
    intro f h0 h1 d hd
    by_cases hz : f = 0
    · simp [fracDigits, hz] at hd
    · simp only [fracDigits, if_neg hz] at hd
      rcases List.mem_cons.mp hd with hd | hd
      · subst hd
        have hlt : (f * 10 : ℚ) < 10 := by linarith
        have hfl : ⌊(f * 10 : ℚ)⌋ < 10 := by
          rw [Int.floor_lt]
          push_cast
          linarith
        have hfl0 : (0 : Int) ≤ ⌊(f * 10 : ℚ)⌋ := by
          rw [Int.le_floor]
          push_cast
          linarith
        omega
      · have hfr0 : (0 : ℚ) ≤ f * 10 - (⌊(f * 10 : ℚ)⌋ : ℚ) := by
          have := Int.floor_le (f * 10 : ℚ)
          linarith
        have hfr1 : f * 10 - (⌊(f * 10 : ℚ)⌋ : ℚ) < 1 := by
          have := Int.lt_floor_add_one (f * 10 : ℚ)
          linarith
        exact ih _ hfr0 hfr1 d hd

theorem not_mem_101_fmtPosDec (a : ℚ) : 101 ∉ fmtPosDec a := by
  intro hmem
  simp only [fmtPosDec, List.mem_append] at hmem
  rcases hmem with hmem | hmem
  · have := natDigits_digit _ _ hmem
    omega
  · split_ifs at hmem
    · simp at hmem
    · rcases List.mem_cons.mp hmem with hmem | hmem
      · omega
      · have hfr0 : (0 : ℚ) ≤ a - (⌊a⌋ : ℚ) := by
          have := Int.floor_le a
          linarith
        have hfr1 : a - (⌊a⌋ : ℚ) < 1 := by
          have := Int.lt_floor_add_one a
          linarith
        have := fracDigits_digit 1200 _ hfr0 hfr1 _ hmem
        omega

theorem not_mem_101_fmtDisplay (q : ℚ) : 101 ∉ fmtDisplay q := by
  intro hmem
  simp only [fmtDisplay] at hmem
  split_ifs at hmem
  · rcases List.mem_cons.mp hmem with h | h
    · omega
    · exact not_mem_101_fmtPosDec _ h
  · exact not_mem_101_fmtPosDec _ hmem

theorem mem_101_fmtExpPlus (q : ℚ) : 101 ∈ fmtExpPlus q := by
  have hk : ∀ A B C : List Nat, 101 ∈ A ++ B ++ [101] ++ C := by
    intro A B C
    refine List.mem_append.mpr (Or.inl ?_)
    refine List.mem_append.mpr (Or.inr ?_)
    simp
  simp only [fmtExpPlus, List.mem_append]
  right
  split_ifs with hz h
  · simp
  · exact hk _ _ _
  · exact hk _ _ _

/-- C7 counterexample: the claim puts magnitude exactly `1e8` in the
scientific branch and `0.0` in the fixed branch; the code's condition is
`abs > 1e8 || abs < 1e-8`, so `1e8` is emitted in fixed notation
(`,+100000000\r\n`, no `e`) and `0.0` in scientific notation
(`,+0e0\r\n`). -/
theorem double_boundary_values :
    encodeFrame (.Double 0) = asciiBytes ",+0e0\r\n" ∧
    101 ∈ encodeFrame (.Double 0) ∧
    encodeFrame (.Double ((10 : ℚ) ^ 8)) = asciiBytes ",+100000000\r\n" ∧
    101 ∉ encodeFrame (.Double ((10 : ℚ) ^ 8)) := by
  have habs : |(10 : ℚ) ^ 8| = (10 : ℚ) ^ 8 := abs_of_nonneg (by positivity)
  have h0 : encodeF64 0 = asciiBytes ",+0e0\r\n" := by
    rw [encodeF64, if_pos (Or.inr (by rw [abs_zero]; norm_num)),
      fmtExpPlus, if_neg (by norm_num), if_pos rfl]
    rfl
  have hfl : ⌊(10 : ℚ) ^ 8⌋ = 100000000 := by
    rw [show ((10 : ℚ) ^ 8) = ((100000000 : ℤ) : ℚ) by norm_num, Int.floor_intCast]
  have h8 : encodeF64 ((10 : ℚ) ^ 8) = asciiBytes ",+100000000\r\n" := by
    rw [encodeF64, if_neg (by rw [habs]; push_neg; constructor <;> norm_num),
      if_neg (by norm_num : ¬((10 : ℚ) ^ 8) < 0),
      fmtDisplay, if_neg (by norm_num : ¬((10 : ℚ) ^ 8) < 0), fmtPosDec, hfl,
      if_pos (by push_cast; norm_num)]
    decide
  have hframe0 : encodeFrame (.Double 0) = encodeF64 0 := rfl
  have hframe8 : encodeFrame (.Double ((10 : ℚ) ^ 8)) = encodeF64 ((10 : ℚ) ^ 8) := rfl
  refine ⟨hframe0.trans h0, ?_, hframe8.trans h8, ?_⟩
  · rw [hframe0, h0]
    decide
  · rw [hframe8, h8]
    decide

/-- C7 amended: `encode(Double d)` emits scientific notation (a lowercase
`e` appears) exactly when `|d| > 1e8` (strictly) or `|d| < 1e-8`
(including `d = 0`); otherwise fixed notation without an `e`.  In
particular magnitude exactly `1e8` is emitted in fixed notation and `0.0`
in scientific notation. -/
theorem double_scientific_iff (q : ℚ) :
    101 ∈ encodeFrame (.Double q) ↔
      ((10 : ℚ) ^ 8 < |q| ∨ |q| < 1 / (10 : ℚ) ^ 8) := by
  have he : encodeFrame (.Double q) = encodeF64 q := rfl
  rw [he, encodeF64]
  by_cases hc : (10 : ℚ) ^ 8 < |q| ∨ |q| < 1 / (10 : ℚ) ^ 8
  · rw [if_pos hc]
    simp only [hc, iff_true, List.mem_cons, List.mem_append, crlfB]
    right
    left
    exact mem_101_fmtExpPlus q
  · rw [if_neg hc]
    simp only [hc, iff_false, List.mem_cons, List.mem_append, crlfB]
    push_neg
    refine ⟨by omega, ⟨?_, ?_⟩, by simp⟩
    · split_ifs
      · simp
      · simp
    · exact not_mem_101_fmtDisplay q
